import Mathlib

/-!
# Ping-count bot: ledger, retention and aggregation engine — verification

Shallow embedding of the core of `main.py` (a Discord role-ping counter bot):
the CSV/JSON ledgers, the retention cleanup, and the aggregation queries.

Modelling conventions:
* A UTC instant is an `Int` counting microseconds from an arbitrary epoch
  (Python `datetime` has microsecond resolution; `timedelta(days = d)` is
  `d * 86400000000` microseconds).
* A stored timestamp string is represented by its parse outcome `TS`:
  `naive t` is a timezone-naive ISO string denoting instant `t` when read as
  UTC, `aware t` a timezone-qualified string whose UTC instant is `t`, and
  `malformed` a string `datetime.fromisoformat` rejects.  The Python code's
  behaviour depends on a timestamp string only through this outcome.
* A Python function that can raise on a malformed timestamp is embedded as an
  `Option`-valued function; `none` models the uncaught exception aborting the
  scan.
* Ids (guild, role, user, channel, message) are the `String`s the CSV rows
  hold.
-/

namespace PingCount

/-- Microseconds in `timedelta(days = 1)`. -/
def oneDay : Int := 86400000000

/-- Parse outcome of a stored timestamp string (see module docstring). -/
inductive TS where
  | naive (t : Int)
  | aware (t : Int)
  | malformed
deriving DecidableEq

/-- `parse_ts` (main.py:364-368): `datetime.fromisoformat`, then a naive
result gets `tzinfo=utc` attached and an aware one is converted to UTC; both
denote their UTC instant.  `none` models the `ValueError` raised on a
malformed string.  The inline parsers in `cleanup_old_entries` and
`reaction_cleanup` perform the same normalization. -/
def parse_ts : TS → Option Int
  | .naive t => some t
  | .aware t => some t
  | .malformed => none

/-- `cutoff = now - timedelta(days=days)` as computed before every windowed
scan and by the retention cleanup. -/
def cutoffOf (now days : Int) : Int := now - days * oneDay

/-- A row of `role_pings.csv` (header
`guild_id,role_id,user_id,channel_id,timestamp`). -/
structure PingRow where
  guild_id : String
  role_id : String
  user_id : String
  channel_id : String
  timestamp : TS
deriving DecidableEq

/-- A row of `activity_messages.csv` (header
`guild_id,user_id,channel_id,timestamp`). -/
structure ActivityRow where
  guild_id : String
  user_id : String
  channel_id : String
  timestamp : TS
deriving DecidableEq

/-- The row survives retention: its timestamp parses and is on or after the
cutoff. -/
def keepTS (cutoff : Int) (ts : TS) : Bool :=
  match parse_ts ts with
  | some t => cutoff ≤ t
  | none => false

/-- The row is counted as removed by retention: its timestamp parses and is
strictly before the cutoff. -/
def expiredTS (cutoff : Int) (ts : TS) : Bool :=
  match parse_ts ts with
  | some t => t < cutoff
  | none => false

/-- The reader loop of `cleanup_old_entries` (main.py:253-267): one forward
pass accumulating the `kept` rows in order and the `removed` counter.  A row
whose timestamp raises hits the `except: continue` branch: it is neither kept
nor counted as removed. -/
def cleanupScan (cutoff : Int) : List PingRow → List PingRow × Nat
  | [] => ([], 0)
  | row :: rest =>
    let acc := cleanupScan cutoff rest
    match parse_ts row.timestamp with
    | some ts => if cutoff ≤ ts then (row :: acc.1, acc.2) else (acc.1, acc.2 + 1)
    | none => acc

/-- Outcome of `cleanup_old_entries`: the store contents afterwards, the
removed count it reports, and whether the rewrite happened. -/
structure CleanupResult where
  store : List PingRow
  removed : Nat
  rewrote : Bool
deriving DecidableEq

/-- `cleanup_old_entries(days)` (main.py:244-284) on an existing store `rows`
at instant `now`: one scan, and if `removed == 0` skip the rewrite (store
untouched), otherwise rewrite the file with exactly the kept rows. -/
def cleanup_old_entries (now days : Int) (rows : List PingRow) : CleanupResult :=
  if (cleanupScan (cutoffOf now days) rows).2 = 0 then ⟨rows, 0, false⟩
  else ⟨(cleanupScan (cutoffOf now days) rows).1, (cleanupScan (cutoffOf now days) rows).2, true⟩

/-- The `days = days or CLEANUP_DAYS` coercion in the `/cleanup` command
(main.py:629): `None` and `0` are falsy and become the 30-day default; any
other value (negative included) passes through. -/
def cleanup_command_days : Option Int → Int
  | none => 30
  | some d => if d = 0 then 30 else d

/-- A ping row with fixed ids and the given timestamp, for concrete stores. -/
def demoRow (ts : Int) : PingRow := ⟨"1", "10", "u", "c", TS.aware ts⟩

/-- The spec's retention scenario: five parsable records aged 5, 29, 30, 31
and 60 days at query instant `0`. -/
def demoStore : List PingRow :=
  [demoRow (-5 * oneDay), demoRow (-29 * oneDay), demoRow (-30 * oneDay),
   demoRow (-31 * oneDay), demoRow (-60 * oneDay)]

/-- A store row whose timestamp string does not parse. -/
def badRow : PingRow := ⟨"1", "10", "u", "c", TS.malformed⟩

/-- A parsable store row aged 40 days at query instant `0`. -/
def oldRow : PingRow := demoRow (-40 * oneDay)

/-- Python `Counter`/`dict` increment `counts[key] += 1`: updates the entry in
place (insertion order of keys is preserved); a new key is appended at the
end. -/
def bump (key : String) : List (String × Nat) → List (String × Nat)
  | [] => [(key, 1)]
  | (k, n) :: rest => if k = key then (k, n + 1) :: rest else (k, n) :: bump key rest

/-- Python `dict` increment `totals[key] += c` (key appended when absent; in
the code paths using it the key is always present). -/
def bumpBy (key : String) (c : Nat) : List (String × Nat) → List (String × Nat)
  | [] => [(key, c)]
  | (k, n) :: rest => if k = key then (k, n + c) :: rest else (k, n) :: bumpBy key c rest

/-- Value stored under `key` in an insertion-ordered counter, `0` when
absent. -/
def lookupD (key : String) : List (String × Nat) → Nat
  | [] => 0
  | (k, n) :: rest => if k = key then n else lookupD key rest

/-- Ordering used by `most_common` and the leaderboard sorts: count
descending. -/
def byCountDesc (a b : String × Nat) : Prop := b.2 ≤ a.2

instance : DecidableRel byCountDesc := fun a b => inferInstanceAs (Decidable (b.2 ≤ a.2))

instance : IsTotal (String × Nat) byCountDesc := ⟨fun a b => le_total b.2 a.2⟩

instance : IsTrans (String × Nat) byCountDesc := ⟨fun _ _ _ h1 h2 => le_trans h2 h1⟩

/-- `Counter.most_common(limit)`: entries sorted by count descending — a
stable sort over insertion order (`heapq.nlargest` is stable) — truncated to
`limit` entries. -/
def most_common (limit : Nat) (counts : List (String × Nat)) : List (String × Nat) :=
  (List.insertionSort byCountDesc counts).take limit

/-- The counting loop of `get_top_for_role` (main.py:290-307): per-user
occurrence counts over the rows matching the guild and role. -/
def ping_counts (gid rid : String) (rows : List PingRow) : List (String × Nat) :=
  rows.foldl (fun acc row =>
    if row.guild_id = gid ∧ row.role_id = rid then bump row.user_id acc else acc) []

/-- `get_top_for_role(guild_id, role_id, limit)` (main.py:290-307). -/
def get_top_for_role (gid rid : String) (limit : Nat) (rows : List PingRow) :
    List (String × Nat) :=
  most_common limit (ping_counts gid rid rows)

/-- A ping row in guild `g`, role `r`, by the given user. -/
def tieRow (u : String) : PingRow := ⟨"g", "r", u, "c", TS.aware 0⟩

/-- Rows inserted in order A, A, A, B, B, B, C for the tie-break scenario. -/
def tieRows : List PingRow :=
  [tieRow "A", tieRow "A", tieRow "A", tieRow "B", tieRow "B", tieRow "B", tieRow "C"]

/-- `count_messages_in_period(rows, days)` (main.py:954-956):
`sum(1 for row in rows if parse_ts(row["timestamp"]) >= cutoff)` over rows
already filtered to the guild.  The call to `parse_ts` is not guarded, so a
malformed timestamp raises out of the generator: modelled as `none`. -/
def count_messages_in_period (now days : Int) : List ActivityRow → Option Nat
  | [] => some 0
  | row :: rest =>
    match parse_ts row.timestamp with
    | none => none
    | some ts =>
      match count_messages_in_period now days rest with
      | none => none
      | some n => some (if cutoffOf now days ≤ ts then n + 1 else n)

/-- One iteration of the per-user counting loop of `activity_user`
(main.py:1284-1293): rows of other guilds are skipped before the parse, then
the unguarded `parse_ts` may raise (`none`), then in-window rows are counted
per user. -/
def activity_user_step (now days : Int) (gid : String)
    (acc : Option (List (String × Nat))) (row : ActivityRow) :
    Option (List (String × Nat)) :=
  match acc with
  | none => none
  | some counts =>
    if row.guild_id = gid then
      match parse_ts row.timestamp with
      | none => none
      | some ts =>
        if cutoffOf now days ≤ ts then some (bump row.user_id counts) else some counts
    else some counts

/-- The per-user window counter built by `activity_user` (main.py:1281-1293). -/
def activity_user_counter (now days : Int) (gid : String) (rows : List ActivityRow) :
    Option (List (String × Nat)) :=
  rows.foldl (activity_user_step now days gid) (some [])

/-- `ts.hour` of a UTC instant counted in microseconds. -/
def hourOf (t : Int) : Int := (t % oneDay) / 3600000000

/-- The row-processing loop of `activity_channel_heatmap` (main.py:1183-1196):
guild filter, parse guarded by `try/except: continue`, window filter, and
channel-membership filter; yields one `(channel_id, hour)` increment per
accepted row. -/
def heatmap_increments (now days : Int) (gid : String) (channels : List String)
    (rows : List ActivityRow) : List (String × Int) :=
  rows.filterMap (fun row =>
    if row.guild_id = gid then
      match parse_ts row.timestamp with
      | none => none
      | some ts =>
        if ts < cutoffOf now days then none
        else if row.channel_id ∈ channels then some (row.channel_id, hourOf ts)
        else none
    else none)

/-- An activity store holding one parsable row followed by one malformed row,
all in guild `"1"`. -/
def badActivityStore : List ActivityRow :=
  [⟨"1", "u", "c", TS.aware 0⟩, ⟨"1", "u2", "c", TS.malformed⟩]

/-- An activity row in guild `"1"` dated one day in the future of instant 0. -/
def futureRow : ActivityRow := ⟨"1", "u", "c", TS.aware oneDay⟩

instance : DecidableRel (fun a b : Nat => b ≤ a) := fun a b => inferInstanceAs (Decidable (b ≤ a))

instance : IsTotal Nat (fun a b => b ≤ a) := ⟨fun a b => le_total b a⟩

instance : IsTrans Nat (fun a b => b ≤ a) := ⟨fun _ _ _ h1 h2 => le_trans h2 h1⟩

/-- `sorted(user_counter.values(), reverse=True)` (main.py:1356): the per-user
counts in descending order. -/
def sortedDesc (l : List Nat) : List Nat := List.insertionSort (fun a b => b ≤ a) l

/-- `share(top_percent)` of `activity_user_distribution` (main.py:1362-1364)
on the descending-sorted counts: `cutoff_index = max(1, int(total_users *
top_percent))` — `int()` on the nonnegative product truncates, i.e. floors —
then the sum of the first `cutoff_index` counts over `total_messages`, as a
percentage. -/
def share (user_counts : List Nat) (total_messages : Nat) (p : ℚ) : ℚ :=
  ((user_counts.take (max 1 (Int.toNat ⌊(user_counts.length : ℚ) * p⌋))).sum : ℚ)
    / (total_messages : ℚ) * 100

/-- Modelled from the spec's sentence, not from the code: the share of the top
`ceil(total_users * p)` users (minimum 1).  Kept for comparison with
`share`. -/
def share_spec (user_counts : List Nat) (total_messages : Nat) (p : ℚ) : ℚ :=
  ((user_counts.take (max 1 (Int.toNat ⌈(user_counts.length : ℚ) * p⌉))).sum : ℚ)
    / (total_messages : ℚ) * 100

/-- The full distribution pipeline from the per-user counter: sort the counts
descending, then take the share. -/
def distribution_share (counter : List (String × Nat)) (total_messages : Nat) (p : ℚ) : ℚ :=
  share (sortedDesc (counter.map Prod.snd)) total_messages p

/-- A mentioned role as the ingestion filter sees it: id and the platform
`mentionable` flag. -/
structure RoleMention where
  id : String
  mentionable : Bool
deriving DecidableEq

/-- The fields of a platform message the ingestion filter reads. -/
structure Message where
  author_bot : Bool
  in_guild : Bool
  guild_id : String
  author_id : String
  channel_id : String
  role_mentions : List RoleMention
  attachments : List (List Char)
  content : List Char
deriving DecidableEq

/-- A record appended by the message-ingestion path. -/
inductive Event where
  | activity (guild_id user_id channel_id : String)
  | ping (guild_id role_id user_id channel_id : String)
deriving DecidableEq

def Event.isActivity : Event → Bool
  | .activity _ _ _ => true
  | .ping _ _ _ _ => false

def Event.pingRole : Event → Option String
  | .ping _ rid _ _ => some rid
  | .activity _ _ _ => none

/-- `on_message` (main.py:405-449): bot authors and direct messages record
nothing; otherwise exactly one message-activity append, then one ping append
per mentioned role whose `mentionable` flag is set (the spoiler branch at the
end only prints).  Returns the appended records in order. -/
def on_message (m : Message) : List Event :=
  if m.author_bot = true ∨ m.in_guild = false then []
  else
    Event.activity m.guild_id m.author_id m.channel_id ::
      (m.role_mentions.filter (fun r => r.mentionable)).map
        (fun r => Event.ping m.guild_id r.id m.author_id m.channel_id)

/-- A mentionable role mention. -/
def mentionA : RoleMention := ⟨"RA", true⟩

/-- A non-mentionable role mention. -/
def mentionB : RoleMention := ⟨"RB", false⟩

/-- A non-bot guild message mentioning one mentionable and one non-mentionable
role. -/
def normalMsg : Message := ⟨false, true, "g", "u", "c", [mentionA, mentionB], [], []⟩

/-- A bot-authored guild message mentioning a mentionable role. -/
def botMsg : Message := ⟨true, true, "g", "u", "c", [mentionA], [], []⟩

/-- The reserved attachment-name marker `"SPOILER_"`. -/
def spoilerMarker : List Char := ['S', 'P', 'O', 'I', 'L', 'E', 'R', '_']

/-- `"||" in message.content`: the body contains two consecutive pipe
characters (the spoiler-markup delimiter). -/
def hasSpoilerBars : List Char → Bool
  | c :: d :: rest => (c == '|' && d == '|') || hasSpoilerBars (d :: rest)
  | _ => false

/-- The spoiler classification of `on_reaction_add` (main.py:648-651): some
attachment filename starts with `SPOILER_`, or the body contains `||`. -/
def is_spoiler (attachments : List (List Char)) (content : List Char) : Bool :=
  attachments.any (fun a => spoilerMarker.isPrefixOf a) || hasSpoilerBars content

/-- A record of `data/reactions/stats/<guild>.json` as `record_reaction`
writes it (message id, reactor id, emoji string form). -/
structure ReactionEvent where
  message_id : String
  user_id : String
  emoji : String
deriving DecidableEq

/-- The fields of a reaction-add event `on_reaction_add` reads. -/
structure ReactionCtx where
  user_bot : Bool
  user_id : String
  message_id : String
  in_guild : Bool
  attachments : List (List Char)
  content : List Char
  emoji : String
deriving DecidableEq

/-- `on_reaction_add` (main.py:636-663): bot reactors record nothing, DMs
record nothing; otherwise one ReactionEvent is appended iff the parent
message classifies as spoiler.  Returns the appended records. -/
def on_reaction_add (r : ReactionCtx) : List ReactionEvent :=
  if r.user_bot = true then []
  else if r.in_guild = false then []
  else if is_spoiler r.attachments r.content then [⟨r.message_id, r.user_id, r.emoji⟩]
  else []

/-- A stored reaction record as read back from the per-guild JSON. -/
structure Reaction where
  message_id : String
  user_id : String
  emoji : String
  timestamp : TS
deriving DecidableEq

/-- The platform-membership facts `reactionstats` consults at query time:
whether `guild.get_member(uid)` resolves, whether `guild.get_role(rid)`
resolves, and whether that member currently holds that role. -/
structure GuildView where
  isMember : String → Bool
  resolves : String → Bool
  hasRole : String → String → Bool

/-- Step (1) of the role ranking in `reactionstats` (main.py:788-790):
reaction count per user, insertion-ordered. -/
def user_reaction_count (reactions : List Reaction) : List (String × Nat) :=
  reactions.foldl (fun acc r => bump r.user_id acc) []

/-- The inner loop of step (3) (main.py:801-804): add this user's full
reaction count to every configured role the member currently holds. -/
def addRoles (g : GuildView) (u : String) (c : Nat) (rank_roles : List String)
    (totals : List (String × Nat)) : List (String × Nat) :=
  rank_roles.foldl (fun tot rid =>
    if g.resolves rid && g.hasRole u rid then bumpBy rid c tot else tot) totals

/-- Steps (2)+(3) of `reactionstats` (main.py:793-804): totals start at zero
for every configured role; users who are no longer members are skipped. -/
def role_totals (g : GuildView) (rank_roles : List String)
    (urc : List (String × Nat)) : List (String × Nat) :=
  urc.foldl (fun tot uc =>
    if g.isMember uc.1 then addRoles g uc.1 uc.2 rank_roles tot else tot)
    (rank_roles.map (fun rid => (rid, 0)))

/-- Step (4) (main.py:807-809): the accumulated role totals sorted by count
descending. -/
def reactionstats_roles (g : GuildView) (rank_roles : List String)
    (reactions : List Reaction) : List (String × Nat) :=
  List.insertionSort byCountDesc (role_totals g rank_roles (user_reaction_count reactions))

/-- A guild view in which every id resolves, everyone is a member and every
member holds every role. -/
def allView : GuildView := ⟨fun _ => true, fun _ => true, fun _ _ => true⟩

/-- A reaction by user `u` with a fixed message id and emoji. -/
def demoReaction (u : String) : Reaction := ⟨"m", u, "e", TS.aware 0⟩

end PingCount

namespace PingCount

theorem cleanupScan_fst (cutoff : Int) (rows : List PingRow) :
    (cleanupScan cutoff rows).1 = rows.filter (fun r => keepTS cutoff r.timestamp) := by
  induction rows with
  | nil => rfl
  | cons row rest ih =>
    simp only [cleanupScan, List.filter_cons, keepTS] at ih ⊢
    cases h : parse_ts row.timestamp with
    | none => simpa [h] using ih
    | some ts =>
      by_cases hle : cutoff ≤ ts
      · simp [h, hle, ih]
      · simp [h, hle, ih]

theorem cleanupScan_snd (cutoff : Int) (rows : List PingRow) :
    (cleanupScan cutoff rows).2 = rows.countP (fun r => expiredTS cutoff r.timestamp) := by
  induction rows with
  | nil => rfl
  | cons row rest ih =>
    simp only [cleanupScan, List.countP_cons, expiredTS] at ih ⊢
    cases h : parse_ts row.timestamp with
    | none => simpa [h] using ih
    | some ts =>
      by_cases hle : cutoff ≤ ts
      · have hlt : ¬ ts < cutoff := not_lt.mpr hle
        simp [h, hle, hlt, ih]
      · have hlt : ts < cutoff := lt_of_not_le hle
        simp [h, hle, hlt, ih]

theorem keepTS_not_expiredTS (cutoff : Int) (ts : TS) :
    keepTS cutoff ts = true → expiredTS cutoff ts = false := by
  cases ts with
  | naive t => simp [keepTS, expiredTS, parse_ts]
  | aware t => simp [keepTS, expiredTS, parse_ts]
  | malformed => simp [keepTS, expiredTS, parse_ts]

theorem keepTS_isSome (cutoff : Int) (ts : TS) :
    keepTS cutoff ts = true → (parse_ts ts).isSome := by
  cases ts <;> simp [keepTS, parse_ts]

theorem countP_congr_local {α : Type} (p q : α → Bool) (l : List α)
    (h : ∀ a ∈ l, p a = q a) : l.countP p = l.countP q := by
  induction l with
  | nil => rfl
  | cons a t ih =>
    simp only [List.countP_cons, h a (by simp), ih (fun b hb => h b (by simp [hb]))]

theorem countP_expired_filter_keep (cutoff : Int) (rows : List PingRow) :
    (rows.filter (fun r => keepTS cutoff r.timestamp)).countP
      (fun r => expiredTS cutoff r.timestamp) = 0 := by
  refine List.countP_eq_zero.mpr (fun r hr => ?_)
  have hk : keepTS cutoff r.timestamp = true := (List.mem_filter.mp hr).2
  simp [keepTS_not_expiredTS cutoff r.timestamp hk]

theorem cleanup_store_no_expired (now days : Int) (rows : List PingRow) :
    ∀ r ∈ (cleanup_old_entries now days rows).store,
      expiredTS (cutoffOf now days) r.timestamp = false := by
  intro r hr
  unfold cleanup_old_entries at hr
  by_cases hs : (cleanupScan (cutoffOf now days) rows).2 = 0
  · rw [if_pos hs] at hr
    have h0 : rows.countP (fun r => expiredTS (cutoffOf now days) r.timestamp) = 0 := by
      rw [← cleanupScan_snd]; exact hs
    have := List.countP_eq_zero.mp h0 r hr
    simpa using this
  · rw [if_neg hs] at hr
    rw [cleanupScan_fst] at hr
    exact keepTS_not_expiredTS _ _ (List.mem_filter.mp hr).2

/-- C1: on a store in which every record's timestamp parses,
`cleanup_old_entries(days = h)` keeps exactly the records whose UTC-normalized
timestamp is `≥ now − h` days, reports exactly the others as removed, and an
immediately repeated cleanup removes zero records, leaves the store contents
identical, and skips the rewrite. -/
theorem C1_cleanup_retention (now h : Int) (rows : List PingRow)
    (hp : ∀ r ∈ rows, (parse_ts r.timestamp).isSome) :
    (cleanup_old_entries now h rows).store
        = rows.filter (fun r => keepTS (cutoffOf now h) r.timestamp)
    ∧ (cleanup_old_entries now h rows).removed
        = rows.countP (fun r => ! keepTS (cutoffOf now h) r.timestamp)
    ∧ cleanup_old_entries now h ((cleanup_old_entries now h rows).store)
        = ⟨(cleanup_old_entries now h rows).store, 0, false⟩ := by
  have hpt : ∀ r ∈ rows,
      expiredTS (cutoffOf now h) r.timestamp = (! keepTS (cutoffOf now h) r.timestamp) := by
    intro r hr
    have hsome := hp r hr
    cases hts : r.timestamp with
    | naive t =>
      by_cases hlt : t < cutoffOf now h
      · simp [expiredTS, keepTS, parse_ts, hlt, not_le.mpr hlt]
      · simp [expiredTS, keepTS, parse_ts, hlt, not_lt.mp hlt]
    | aware t =>
      by_cases hlt : t < cutoffOf now h
      · simp [expiredTS, keepTS, parse_ts, hlt, not_le.mpr hlt]
      · simp [expiredTS, keepTS, parse_ts, hlt, not_lt.mp hlt]
    | malformed => rw [hts] at hsome; simp [parse_ts] at hsome
  have hcnt : rows.countP (fun r => expiredTS (cutoffOf now h) r.timestamp)
      = rows.countP (fun r => ! keepTS (cutoffOf now h) r.timestamp) :=
    countP_congr_local _ _ _ hpt
  have hscan2 := cleanupScan_snd (cutoffOf now h) rows
  have hscan1 := cleanupScan_fst (cutoffOf now h) rows
  by_cases hs : (cleanupScan (cutoffOf now h) rows).2 = 0
  · have hall : ∀ r ∈ rows, keepTS (cutoffOf now h) r.timestamp = true := by
      intro r hr
      have h0 := List.countP_eq_zero.mp (by rw [← hscan2]; exact hs) r hr
      have := hpt r hr
      by_contra hk
      simp only [Bool.not_eq_true] at hk
      rw [hk] at this
      simp only [Bool.not_false] at this
      exact h0 (by simp [this])
    have hfilter : rows.filter (fun r => keepTS (cutoffOf now h) r.timestamp) = rows :=
      List.filter_eq_self.mpr (fun r hr => by simp [hall r hr])
    have hres : cleanup_old_entries now h rows = ⟨rows, 0, false⟩ := by
      unfold cleanup_old_entries; rw [if_pos hs]
    refine ⟨by rw [hres, hfilter], ?_, ?_⟩
    · rw [hres]
      have : rows.countP (fun r => ! keepTS (cutoffOf now h) r.timestamp) = 0 :=
        List.countP_eq_zero.mpr (fun r hr => by simp [hall r hr])
      simp [this]
    · rw [hres]
      unfold cleanup_old_entries
      rw [if_pos hs]
  · have hres : cleanup_old_entries now h rows
        = ⟨(cleanupScan (cutoffOf now h) rows).1, (cleanupScan (cutoffOf now h) rows).2, true⟩ := by
      unfold cleanup_old_entries; rw [if_neg hs]
    refine ⟨by rw [hres, hscan1], by rw [hres]; rw [hscan2, hcnt], ?_⟩
    rw [hres]
    have hzero : (cleanupScan (cutoffOf now h)
        ((cleanupScan (cutoffOf now h) rows).1)).2 = 0 := by
      rw [cleanupScan_snd, hscan1]
      exact countP_expired_filter_keep _ _
    unfold cleanup_old_entries
    rw [if_pos hzero]

/-- Witness for C1: the spec scenario with records aged 5, 29, 30, 31 and 60
days and horizon 30: exactly the 31- and 60-day rows are removed, the 5-, 29-
and 30-day rows are kept, and a second run is a skipped-rewrite no-op. -/
theorem C1_cleanup_retention_witness :
    (∀ r ∈ demoStore, (parse_ts r.timestamp).isSome)
    ∧ ((cleanup_old_entries 0 30 demoStore).store
          = demoStore.filter (fun r => keepTS (cutoffOf 0 30) r.timestamp)
        ∧ (cleanup_old_entries 0 30 demoStore).removed
          = demoStore.countP (fun r => ! keepTS (cutoffOf 0 30) r.timestamp)
        ∧ cleanup_old_entries 0 30 ((cleanup_old_entries 0 30 demoStore).store)
          = ⟨(cleanup_old_entries 0 30 demoStore).store, 0, false⟩)
    ∧ cleanup_old_entries 0 30 demoStore
        = ⟨[demoRow (-5 * oneDay), demoRow (-29 * oneDay), demoRow (-30 * oneDay)], 2, true⟩ :=
  ⟨by decide, C1_cleanup_retention 0 30 demoStore (by decide), by decide⟩

/-- C2 counterexample: a record whose timestamp fails to parse hits the
`except: continue` branch of `cleanup_old_entries` — it is neither kept nor
counted as removed.  On the store `[badRow]` nothing is counted as removed, so
the rewrite is skipped and the unparsable record remains; on
`[badRow, oldRow]` the reported removed count is 1 while
`originalCount − survivorCount = 2`. -/
theorem C2_cleanup_unparsable_counterexample :
    ((cleanup_old_entries 0 30 [badRow]).store = [badRow]
      ∧ (parse_ts badRow.timestamp).isSome = false)
    ∧ ((cleanup_old_entries 0 30 [badRow, oldRow]).removed = 1
      ∧ [badRow, oldRow].length - (cleanup_old_entries 0 30 [badRow, oldRow]).store.length = 2) := by
  decide

/-- C2 (amended): `cleanup_old_entries` reports as removed exactly the parsable
records strictly older than the cutoff; when that count is nonzero the rewrite
keeps exactly the parsable in-horizon records (so no unparsable record
remains), but when it is zero the store is left untouched, unparsable records
included. -/
theorem C2_cleanup_unparsable (now h : Int) (rows : List PingRow) :
    (cleanup_old_entries now h rows).removed
        = rows.countP (fun r => expiredTS (cutoffOf now h) r.timestamp)
    ∧ ((cleanup_old_entries now h rows).removed ≠ 0 →
        (cleanup_old_entries now h rows).store
            = rows.filter (fun r => keepTS (cutoffOf now h) r.timestamp)
        ∧ ∀ r ∈ (cleanup_old_entries now h rows).store, (parse_ts r.timestamp).isSome)
    ∧ ((cleanup_old_entries now h rows).removed = 0 →
        (cleanup_old_entries now h rows).store = rows
        ∧ (cleanup_old_entries now h rows).rewrote = false) := by
  by_cases hs : (cleanupScan (cutoffOf now h) rows).2 = 0
  · have hres : cleanup_old_entries now h rows = ⟨rows, 0, false⟩ := by
      unfold cleanup_old_entries; rw [if_pos hs]
    rw [hres]
    refine ⟨by rw [← cleanupScan_snd]; exact hs.symm, by simp, by simp⟩
  · have hres : cleanup_old_entries now h rows
        = ⟨(cleanupScan (cutoffOf now h) rows).1, (cleanupScan (cutoffOf now h) rows).2, true⟩ := by
      unfold cleanup_old_entries; rw [if_neg hs]
    rw [hres]
    refine ⟨cleanupScan_snd _ _, fun _ => ⟨cleanupScan_fst _ _, ?_⟩, fun h0 => absurd h0 hs⟩
    intro r hr
    rw [cleanupScan_fst] at hr
    exact keepTS_isSome _ _ (List.mem_filter.mp hr).2

/-- Witness for C2 (amended): instantiated on `[badRow, oldRow]` (nonzero
removal: survivors all parse) and `[badRow]` (zero removal: store untouched,
rewrite skipped). -/
theorem C2_cleanup_unparsable_witness :
    ((cleanup_old_entries 0 30 [badRow, oldRow]).removed
        = [badRow, oldRow].countP (fun r => expiredTS (cutoffOf 0 30) r.timestamp))
    ∧ ((cleanup_old_entries 0 30 [badRow, oldRow]).store
          = [badRow, oldRow].filter (fun r => keepTS (cutoffOf 0 30) r.timestamp)
        ∧ ∀ r ∈ (cleanup_old_entries 0 30 [badRow, oldRow]).store,
            (parse_ts r.timestamp).isSome)
    ∧ ((cleanup_old_entries 0 30 [badRow]).store = [badRow]
        ∧ (cleanup_old_entries 0 30 [badRow]).rewrote = false) :=
  ⟨(C2_cleanup_unparsable 0 30 [badRow, oldRow]).1,
   (C2_cleanup_unparsable 0 30 [badRow, oldRow]).2.1 (by decide),
   (C2_cleanup_unparsable 0 30 [badRow]).2.2 (by decide)⟩

/-- C10: the `/cleanup` command coerces a `days` argument of `0` to the 30-day
default (`days or CLEANUP_DAYS` — `0` is falsy) but passes a negative `days`
through unchanged, which makes the cutoff a future instant, so after the
cleanup no surviving record has a parsable timestamp earlier than `now`. -/
theorem C10_cleanup_negative_days (now d : Int) (rows : List PingRow) (hd : d < 0) :
    cleanup_command_days (some 0) = 30
    ∧ cleanup_command_days (some d) = d
    ∧ ∀ r ∈ (cleanup_old_entries now (cleanup_command_days (some d)) rows).store,
        ∀ ts, parse_ts r.timestamp = some ts → now ≤ ts := by
  have hdne : d ≠ 0 := ne_of_lt hd
  have hday : cleanup_command_days (some d) = d := by
    simp [cleanup_command_days, hdne]
  refine ⟨by simp [cleanup_command_days], hday, ?_⟩
  intro r hr ts hts
  have hne := cleanup_store_no_expired now (cleanup_command_days (some d)) rows r hr
  rw [hday] at hne
  have hone : (0:Int) < oneDay := by norm_num [oneDay]
  have hprod : 0 < -(d * oneDay) := by
    have hm := mul_pos (neg_pos.mpr hd) hone
    rwa [neg_mul] at hm
  simp only [expiredTS, hts, decide_eq_false_iff_not, not_lt] at hne
  simp only [cutoffOf] at hne
  omega

/-- Witness for C10: at `now = 0`, `days = -1`, a store holding one record one
day in the past; the conclusion applies with the hypothesis `-1 < 0`. -/
theorem C10_cleanup_negative_days_witness :
    cleanup_command_days (some 0) = 30
    ∧ cleanup_command_days (some (-1)) = -1
    ∧ ∀ r ∈ (cleanup_old_entries 0 (cleanup_command_days (some (-1))) [demoRow (-1 * oneDay)]).store,
        ∀ ts, parse_ts r.timestamp = some ts → (0:Int) ≤ ts :=
  C10_cleanup_negative_days 0 (-1) [demoRow (-1 * oneDay)] (by decide)

theorem count_messages_none_of_bad (now days : Int) (rows : List ActivityRow)
    (hbad : ∃ r ∈ rows, parse_ts r.timestamp = none) :
    count_messages_in_period now days rows = none := by
  induction rows with
  | nil => simp at hbad
  | cons row rest ih =>
    obtain ⟨r, hr, hparse⟩ := hbad
    rcases List.mem_cons.mp hr with hhead | htail
    · subst hhead
      simp [count_messages_in_period, hparse]
    · have hrest := ih ⟨r, htail, hparse⟩
      cases hp : parse_ts row.timestamp with
      | none => simp [count_messages_in_period, hp]
      | some ts => simp [count_messages_in_period, hp, hrest]

theorem activity_user_foldl_none (now days : Int) (gid : String) (rows : List ActivityRow) :
    rows.foldl (activity_user_step now days gid) none = none := by
  induction rows with
  | nil => rfl
  | cons row rest ih => simpa [activity_user_step] using ih

theorem activity_user_none_of_bad (now days : Int) (gid : String) (rows : List ActivityRow)
    (hbad : ∃ r ∈ rows, r.guild_id = gid ∧ parse_ts r.timestamp = none) :
    activity_user_counter now days gid rows = none := by
  unfold activity_user_counter
  suffices hgen : ∀ acc : List (String × Nat),
      rows.foldl (activity_user_step now days gid) (some acc) = none by
    exact hgen []
  induction rows with
  | nil => simp at hbad
  | cons row rest ih =>
    intro acc
    obtain ⟨r, hr, hg, hparse⟩ := hbad
    rcases List.mem_cons.mp hr with hhead | htail
    · subst hhead
      have hstep : activity_user_step now days gid (some acc) r = none := by
        simp [activity_user_step, hg, hparse]
      rw [List.foldl_cons, hstep]
      exact activity_user_foldl_none now days gid rest
    · rw [List.foldl_cons]
      cases hstep : activity_user_step now days gid (some acc) row with
      | none => exact activity_user_foldl_none now days gid rest
      | some acc2 => exact ih ⟨r, htail, hg, hparse⟩ acc2

theorem heatmap_skips_unparsable (now days : Int) (gid : String) (channels : List String)
    (rows : List ActivityRow) :
    heatmap_increments now days gid channels rows
      = heatmap_increments now days gid channels
          (rows.filter (fun r => (parse_ts r.timestamp).isSome)) := by
  unfold heatmap_increments
  induction rows with
  | nil => rfl
  | cons row rest ih =>
    by_cases hp : (parse_ts row.timestamp).isSome
    · obtain ⟨ts, hts⟩ := Option.isSome_iff_exists.mp hp
      simp only [List.filter_cons, hp, if_true, List.filterMap_cons]
      rw [← ih]
    · have hnone : parse_ts row.timestamp = none := Option.not_isSome_iff_eq_none.mp hp
      have hfn : (fun row : ActivityRow =>
          if row.guild_id = gid then
            match parse_ts row.timestamp with
            | none => none
            | some ts =>
              if ts < cutoffOf now days then none
              else if row.channel_id ∈ channels then some (row.channel_id, hourOf ts)
              else none
          else none) row = none := by
        simp [hnone]
      simp only [List.filter_cons, hp, if_false, List.filterMap_cons, hfn]
      exact ih

/-- C3 counterexample: on a store holding one parsable and one malformed
timestamp, the period count of `activity_overview` and the per-user window
count of `activity_user` both abort (the unguarded `parse_ts` raises), instead
of skipping the malformed record. -/
theorem C3_malformed_counterexample :
    count_messages_in_period 0 7 badActivityStore = none
    ∧ activity_user_counter 0 7 "1" badActivityStore = none := by
  constructor <;> rfl

/-- C3 (amended): a malformed timestamp aborts the window aggregations that
call `parse_ts` unguarded — the period counts of `activity_overview` and the
per-user window count of `activity_user` — while `activity_channel_heatmap`,
which wraps the parse in `try/except: continue`, skips malformed records and
always completes. -/
theorem C3_malformed_aborts_unguarded_scans (now days : Int) (gid : String)
    (channels : List String) (rows : List ActivityRow)
    (hbad : ∃ r ∈ rows, parse_ts r.timestamp = none)
    (hg : ∀ r ∈ rows, r.guild_id = gid) :
    count_messages_in_period now days rows = none
    ∧ activity_user_counter now days gid rows = none
    ∧ heatmap_increments now days gid channels rows
        = heatmap_increments now days gid channels
            (rows.filter (fun r => (parse_ts r.timestamp).isSome)) := by
  obtain ⟨r, hr, hparse⟩ := hbad
  exact ⟨count_messages_none_of_bad now days rows ⟨r, hr, hparse⟩,
    activity_user_none_of_bad now days gid rows ⟨r, hr, hg r hr, hparse⟩,
    heatmap_skips_unparsable now days gid channels rows⟩

/-- Witness for C3 (amended), instantiated on the two-row store with one
malformed timestamp. -/
theorem C3_malformed_aborts_unguarded_scans_witness :
    count_messages_in_period 0 7 badActivityStore = none
    ∧ activity_user_counter 0 7 "1" badActivityStore = none
    ∧ heatmap_increments 0 7 "1" ["c"] badActivityStore
        = heatmap_increments 0 7 "1" ["c"]
            (badActivityStore.filter (fun r => (parse_ts r.timestamp).isSome)) :=
  C3_malformed_aborts_unguarded_scans 0 7 "1" ["c"] badActivityStore
    (by decide) (by decide)

/-- C5 counterexample: the window check is only `ts >= cutoff` — there is no
upper bound at `now`.  A record dated one day in the future of `now = 0` is
counted by `count_messages_in_period` although its timestamp does not lie in
`[now − days, now)`. -/
theorem C5_window_counterexample :
    count_messages_in_period 0 7 [futureRow] = some 1
    ∧ ¬ (cutoffOf 0 7 ≤ oneDay ∧ oneDay < 0) := by
  constructor
  · rfl
  · intro h
    have := h.2
    norm_num [oneDay] at this

/-- C5 (amended): a record with parsable timestamp is counted by the windowed
aggregations iff its UTC-normalized timestamp is `≥ now − N` days — the
inclusive lower bound of the claim, with no upper bound at `now` (future-dated
records are counted too).  A record at exactly `now − N` days is included and
one a microsecond older is excluded, both in `count_messages_in_period` and
in the per-user count of `activity_user`. -/
theorem C5_window_lower_bound (now days : Int) (gid u c : String) (rows : List ActivityRow)
    (hp : ∀ r ∈ rows, (parse_ts r.timestamp).isSome) :
    count_messages_in_period now days rows
      = some (rows.countP (fun r => keepTS (cutoffOf now days) r.timestamp))
    ∧ count_messages_in_period now days [⟨gid, u, c, TS.aware (cutoffOf now days)⟩] = some 1
    ∧ count_messages_in_period now days [⟨gid, u, c, TS.aware (cutoffOf now days - 1)⟩] = some 0
    ∧ activity_user_counter now days gid [⟨gid, u, c, TS.aware (cutoffOf now days)⟩]
        = some [(u, 1)]
    ∧ activity_user_counter now days gid [⟨gid, u, c, TS.aware (cutoffOf now days - 1)⟩]
        = some [] := by
  refine ⟨?_, ?_, ?_, ?_, ?_⟩
  · induction rows with
    | nil => rfl
    | cons row rest ih =>
      have hsome := hp row (by simp)
      obtain ⟨ts, hts⟩ := Option.isSome_iff_exists.mp hsome
      have hrest := ih (fun r hr => hp r (by simp [hr]))
      simp only [count_messages_in_period, hts, hrest, List.countP_cons, keepTS]
      by_cases hin : cutoffOf now days ≤ ts
      · simp [hin, Nat.add_comm]
      · simp [hin]
  · simp [count_messages_in_period, parse_ts]
  · have hlt : ¬ cutoffOf now days ≤ cutoffOf now days - 1 := by omega
    simp [count_messages_in_period, parse_ts, hlt]
  · simp [activity_user_counter, activity_user_step, parse_ts, bump]
  · have hlt : ¬ cutoffOf now days ≤ cutoffOf now days - 1 := by omega
    simp [activity_user_counter, activity_user_step, parse_ts, hlt]

/-- Witness for C5 (amended), instantiated on a store with one record exactly
at the cutoff and the boundary singletons at `now = 0`, `days = 7`. -/
theorem C5_window_lower_bound_witness :
    count_messages_in_period 0 7 [⟨"1", "u", "c", TS.aware (cutoffOf 0 7)⟩]
      = some ([(⟨"1", "u", "c", TS.aware (cutoffOf 0 7)⟩ : ActivityRow)].countP
          (fun r => keepTS (cutoffOf 0 7) r.timestamp))
    ∧ count_messages_in_period 0 7 [⟨"1", "u", "c", TS.aware (cutoffOf 0 7)⟩] = some 1
    ∧ count_messages_in_period 0 7 [⟨"1", "u", "c", TS.aware (cutoffOf 0 7 - 1)⟩] = some 0
    ∧ activity_user_counter 0 7 "1" [⟨"1", "u", "c", TS.aware (cutoffOf 0 7)⟩]
        = some [("u", 1)]
    ∧ activity_user_counter 0 7 "1" [⟨"1", "u", "c", TS.aware (cutoffOf 0 7 - 1)⟩]
        = some [] :=
  C5_window_lower_bound 0 7 "1" "u" "c" [⟨"1", "u", "c", TS.aware (cutoffOf 0 7)⟩]
    (by decide)

/-- C4 counterexample: `share` uses `int()` (truncation, i.e. floor on the
nonnegative product), not `ceil`.  With 5 users holding counts 4, 3, 1, 1, 1
(10 messages) and `p = 0.25`, the code sums the top `max(1, ⌊5·0.25⌋) = 1`
user (share 40%), while the claim's `ceil(5·0.25) = 2` users would give
70%. -/
theorem C4_share_counterexample :
    share [4, 3, 1, 1, 1] 10 (1/4) = 40
    ∧ share_spec [4, 3, 1, 1, 1] 10 (1/4) = 70
    ∧ share [4, 3, 1, 1, 1] 10 (1/4) ≠ share_spec [4, 3, 1, 1, 1] 10 (1/4) := by
  have hfloor : (⌊(([4, 3, 1, 1, 1] : List Nat).length : ℚ) * (1/4)⌋ : Int) = 1 := by
    norm_num
  have hceil : (⌈(([4, 3, 1, 1, 1] : List Nat).length : ℚ) * (1/4)⌉ : Int) = 2 := by
    rw [show ((([4, 3, 1, 1, 1] : List Nat).length : ℚ)) * (1/4) = 5/4 by norm_num]
    rw [Int.ceil_eq_iff]
    constructor <;> norm_num
  have h1 : share [4, 3, 1, 1, 1] 10 (1/4) = 40 := by
    unfold share
    rw [hfloor]
    norm_num [List.take, List.sum_cons, List.sum_nil]
  have h2 : share_spec [4, 3, 1, 1, 1] 10 (1/4) = 70 := by
    unfold share_spec
    rw [hceil]
    norm_num [List.take, List.sum_cons, List.sum_nil]
  exact ⟨h1, h2, by rw [h1, h2]; norm_num⟩

/-- C4 (amended): for a non-empty per-user counter, the reported share is the
sum of the largest `max(1, ⌊total_users · p⌋)` per-user counts — floor, not
ceil — divided by the total message count (as a percentage): the pipeline
sorts the counts descending and takes that many from the front, and every
taken count dominates every dropped one. -/
theorem C4_share_floor (counter : List (String × Nat)) (total_messages : Nat) (p : ℚ)
    (_hne : counter ≠ []) :
    distribution_share counter total_messages p
      = (((sortedDesc (counter.map Prod.snd)).take
            (max 1 (Int.toNat ⌊(counter.length : ℚ) * p⌋))).sum : ℚ)
          / (total_messages : ℚ) * 100
    ∧ ∀ x ∈ (sortedDesc (counter.map Prod.snd)).take
          (max 1 (Int.toNat ⌊(counter.length : ℚ) * p⌋)),
        ∀ y ∈ (sortedDesc (counter.map Prod.snd)).drop
          (max 1 (Int.toNat ⌊(counter.length : ℚ) * p⌋)),
          y ≤ x := by
  have hlen : (sortedDesc (counter.map Prod.snd)).length = counter.length := by
    rw [sortedDesc, (List.perm_insertionSort _ _).length_eq, List.length_map]
  refine ⟨?_, ?_⟩
  · unfold distribution_share share
    rw [hlen]
  · intro x hx y hy
    have hsorted : List.Sorted (fun a b : Nat => b ≤ a) (sortedDesc (counter.map Prod.snd)) :=
      List.sorted_insertionSort _ _
    exact hsorted.rel_of_mem_take_of_mem_drop hx hy

/-- Witness for C4 (amended), instantiated on the five-user counter of the
counterexample with `p = 0.25`. -/
theorem C4_share_floor_witness :
    distribution_share [("a", 4), ("b", 3), ("c", 1), ("d", 1), ("e", 1)] 10 (1/4)
      = (((sortedDesc ([("a", 4), ("b", 3), ("c", 1), ("d", 1), ("e", 1)].map Prod.snd)).take
            (max 1 (Int.toNat ⌊(([("a", 4), ("b", 3), ("c", 1), ("d", 1), ("e", 1)].length : ℕ) : ℚ) * (1/4)⌋))).sum : ℚ)
          / ((10 : ℕ) : ℚ) * 100
    ∧ ∀ x ∈ (sortedDesc ([("a", 4), ("b", 3), ("c", 1), ("d", 1), ("e", 1)].map Prod.snd)).take
          (max 1 (Int.toNat ⌊(([("a", 4), ("b", 3), ("c", 1), ("d", 1), ("e", 1)].length : ℕ) : ℚ) * (1/4)⌋)),
        ∀ y ∈ (sortedDesc ([("a", 4), ("b", 3), ("c", 1), ("d", 1), ("e", 1)].map Prod.snd)).drop
          (max 1 (Int.toNat ⌊(([("a", 4), ("b", 3), ("c", 1), ("d", 1), ("e", 1)].length : ℕ) : ℚ) * (1/4)⌋)),
          y ≤ x :=
  C4_share_floor [("a", 4), ("b", 3), ("c", 1), ("d", 1), ("e", 1)] 10 (1/4) (by decide)

theorem filterMap_some_eq_map {α β : Type} (f : α → β) (l : List α) :
    l.filterMap (fun a => some (f a)) = l.map f := by
  induction l with
  | nil => rfl
  | cons a t ih => simp [List.filterMap_cons, ih]

/-- C7: a message from a bot author or outside a guild records zero events;
otherwise exactly one MessageActivityEvent is recorded, and the recorded
PingEvents carry exactly the ids of the mentioned roles whose `mentionable`
flag is set, one per mention, in order. -/
theorem C7_on_message_filter (m : Message) :
    (m.author_bot = true ∨ m.in_guild = false → on_message m = [])
    ∧ (m.author_bot = false → m.in_guild = true →
        (on_message m).countP Event.isActivity = 1
        ∧ (on_message m).filterMap Event.pingRole
            = (m.role_mentions.filter (fun r => r.mentionable)).map (fun r => r.id)) := by
  constructor
  · intro h
    simp only [on_message, if_pos h]
  · intro hb hg
    have hcond : ¬ (m.author_bot = true ∨ m.in_guild = false) := by
      simp [hb, hg]
    simp only [on_message, if_neg hcond]
    constructor
    · simp only [List.countP_cons, Event.isActivity, List.countP_map]
      have h0 : (m.role_mentions.filter (fun r => r.mentionable)).countP
          ((fun e => Event.isActivity e) ∘ fun r =>
            Event.ping m.guild_id r.id m.author_id m.channel_id) = 0 :=
        List.countP_eq_zero.mpr (fun r _ => by simp [Event.isActivity])
      simp [h0, Event.isActivity]
    · simp only [List.filterMap_cons, Event.pingRole, List.filterMap_map]
      rw [show (Event.pingRole ∘ fun r : RoleMention =>
            Event.ping m.guild_id r.id m.author_id m.channel_id)
          = fun r : RoleMention => some r.id from funext (fun r => rfl)]
      exact filterMap_some_eq_map (fun r : RoleMention => r.id) _

/-- Witness for C7: the bot message records nothing; the non-bot guild message
mentioning one mentionable role (`RA`) and one non-mentionable role (`RB`)
records exactly one activity event and exactly one ping event, for `RA`. -/
theorem C7_on_message_filter_witness :
    on_message botMsg = []
    ∧ ((on_message normalMsg).countP Event.isActivity = 1
        ∧ (on_message normalMsg).filterMap Event.pingRole
            = (normalMsg.role_mentions.filter (fun r => r.mentionable)).map (fun r => r.id))
    ∧ on_message normalMsg
        = [Event.activity "g" "u" "c", Event.ping "g" "RA" "u" "c"] :=
  ⟨(C7_on_message_filter botMsg).1 (Or.inl rfl),
   (C7_on_message_filter normalMsg).2 rfl rfl,
   by decide⟩

theorem isPrefixOf_iff_append (l1 l2 : List Char) :
    l1.isPrefixOf l2 = true ↔ ∃ t, l2 = l1 ++ t := by
  induction l1 generalizing l2 with
  | nil =>
    simp [List.isPrefixOf]
  | cons c cs ih =>
    cases l2 with
    | nil =>
      simp [List.isPrefixOf]
    | cons d ds =>
      simp only [List.isPrefixOf, Bool.and_eq_true, beq_iff_eq, ih, List.cons_append,
        List.cons.injEq]
      constructor
      · rintro ⟨hcd, t, ht⟩
        exact ⟨t, hcd.symm, ht⟩
      · rintro ⟨t, hcd, ht⟩
        exact ⟨hcd.symm, t, ht⟩

theorem hasSpoilerBars_iff (l : List Char) :
    hasSpoilerBars l = true ↔ ∃ pre suf, l = pre ++ '|' :: '|' :: suf := by
  induction l with
  | nil =>
    simp only [hasSpoilerBars, Bool.false_eq_true, false_iff]
    rintro ⟨pre, suf, h⟩
    cases pre <;> simp at h
  | cons c rest ih =>
    cases rest with
    | nil =>
      simp only [hasSpoilerBars, Bool.false_eq_true, false_iff]
      rintro ⟨pre, suf, h⟩
      cases pre with
      | nil => simp at h
      | cons p ps =>
        simp only [List.cons_append, List.cons.injEq] at h
        cases ps <;> simp at h
    | cons d rest2 =>
      simp only [hasSpoilerBars, Bool.or_eq_true, Bool.and_eq_true, beq_iff_eq, ih]
      constructor
      · rintro (⟨hc, hd⟩ | ⟨pre, suf, h⟩)
        · exact ⟨[], rest2, by simp [hc, hd]⟩
        · exact ⟨c :: pre, suf, by simp [h]⟩
      · rintro ⟨pre, suf, h⟩
        cases pre with
        | nil =>
          simp only [List.nil_append, List.cons.injEq] at h
          exact Or.inl ⟨h.1, h.2.1⟩
        | cons p ps =>
          simp only [List.cons_append, List.cons.injEq] at h
          exact Or.inr ⟨ps, suf, h.2⟩

/-- C8: for a reaction-add whose reactor is not a bot and whose parent message
is in a guild, a ReactionEvent carrying the message id, reactor id and emoji
string is recorded iff the message is spoiler content — some attachment name
starts with the `SPOILER_` marker or the body contains the `||` delimiter
pair; a bot reactor or a non-spoiler message records nothing. -/
theorem C8_on_reaction_add_spoiler (r : ReactionCtx) :
    (r.user_bot = false → r.in_guild = true →
      (on_reaction_add r = [⟨r.message_id, r.user_id, r.emoji⟩]
        ↔ (∃ a ∈ r.attachments, ∃ t, a = spoilerMarker ++ t)
            ∨ ∃ pre suf, r.content = pre ++ '|' :: '|' :: suf))
    ∧ (r.user_bot = true → on_reaction_add r = [])
    ∧ (is_spoiler r.attachments r.content = false → on_reaction_add r = []) := by
  have hspoiler : is_spoiler r.attachments r.content = true
      ↔ (∃ a ∈ r.attachments, ∃ t, a = spoilerMarker ++ t)
          ∨ ∃ pre suf, r.content = pre ++ '|' :: '|' :: suf := by
    simp only [is_spoiler, Bool.or_eq_true, List.any_eq_true, hasSpoilerBars_iff]
    constructor
    · rintro (⟨a, ha, hp⟩ | h)
      · exact Or.inl ⟨a, ha, (isPrefixOf_iff_append spoilerMarker a).mp hp⟩
      · exact Or.inr h
    · rintro (⟨a, ha, hp⟩ | h)
      · exact Or.inl ⟨a, ha, (isPrefixOf_iff_append spoilerMarker a).mpr hp⟩
      · exact Or.inr h
  refine ⟨?_, ?_, ?_⟩
  · intro hb hg
    rw [← hspoiler]
    by_cases hs : is_spoiler r.attachments r.content = true
    · simp [on_reaction_add, hb, hg, hs]
    · simp only [Bool.not_eq_true] at hs
      simp [on_reaction_add, hb, hg, hs]
  · intro hb
    simp [on_reaction_add, hb]
  · intro hs
    simp [on_reaction_add, hs]

/-- Witness for C8: a non-bot in-guild reaction to a message whose attachment
name starts with `SPOILER_` records the event; the hypotheses are discharged
on that concrete context. -/
theorem C8_on_reaction_add_spoiler_witness :
    (on_reaction_add ⟨false, "u", "m", true, [spoilerMarker ++ ['x']], [], "e"⟩
        = [⟨"m", "u", "e"⟩]
      ↔ (∃ a ∈ [spoilerMarker ++ ['x']], ∃ t, a = spoilerMarker ++ t)
          ∨ ∃ pre suf, ([] : List Char) = pre ++ '|' :: '|' :: suf)
    ∧ on_reaction_add ⟨true, "u", "m", true, [spoilerMarker ++ ['x']], [], "e"⟩ = [] :=
  ⟨(C8_on_reaction_add_spoiler ⟨false, "u", "m", true, [spoilerMarker ++ ['x']], [], "e"⟩).1
      rfl rfl,
   (C8_on_reaction_add_spoiler ⟨true, "u", "m", true, [spoilerMarker ++ ['x']], [], "e"⟩).2.1
      rfl⟩

theorem lookupD_bump (u k : String) (l : List (String × Nat)) :
    lookupD u (bump k l) = lookupD u l + (if k = u then 1 else 0) := by
  induction l with
  | nil =>
    by_cases hu : k = u <;> simp [bump, lookupD, hu]
  | cons kn rest ih =>
    obtain ⟨k1, n⟩ := kn
    by_cases hk : k1 = k
    · subst hk
      by_cases hu : k1 = u <;> simp [bump, lookupD, hu]
    · by_cases hu : k1 = u
      · have hku : ¬ k = u := fun h => hk (hu.trans h.symm)
        have huk : ¬ u = k := fun h => hku h.symm
        simp [bump, lookupD, hk, hu, hku, huk]
      · simp [bump, lookupD, hk, hu, ih]

theorem lookupD_bumpBy (u k : String) (c : Nat) (l : List (String × Nat)) :
    lookupD u (bumpBy k c l) = lookupD u l + (if k = u then c else 0) := by
  induction l with
  | nil =>
    by_cases hu : k = u <;> simp [bumpBy, lookupD, hu]
  | cons kn rest ih =>
    obtain ⟨k1, n⟩ := kn
    by_cases hk : k1 = k
    · subst hk
      by_cases hu : k1 = u <;> simp [bumpBy, lookupD, hu]
    · by_cases hu : k1 = u
      · have hku : ¬ k = u := fun h => hk (hu.trans h.symm)
        have huk : ¬ u = k := fun h => hku h.symm
        simp [bumpBy, lookupD, hk, hu, hku, huk]
      · simp [bumpBy, lookupD, hk, hu, ih]

theorem lookupD_foldl_bump {α : Type} (P : α → Prop) [DecidablePred P] (key : α → String)
    (u : String) (rows : List α) :
    ∀ acc : List (String × Nat),
    lookupD u (rows.foldl (fun a row => if P row then bump (key row) a else a) acc)
      = lookupD u acc + rows.countP (fun row => decide (P row ∧ key row = u)) := by
  induction rows with
  | nil => intro acc; simp
  | cons row rest ih =>
    intro acc
    rw [List.foldl_cons, ih, List.countP_cons]
    by_cases hP : P row
    · rw [if_pos hP, lookupD_bump]
      by_cases hk : key row = u <;> simp [hP, hk] <;> omega
    · rw [if_neg hP]
      simp [hP]

theorem bump_fst_mem (k : String) (l : List (String × Nat)) (u : String) :
    u ∈ (bump k l).map Prod.fst ↔ u ∈ l.map Prod.fst ∨ u = k := by
  induction l with
  | nil => simp [bump, eq_comm]
  | cons kn rest ih =>
    obtain ⟨k1, n⟩ := kn
    by_cases hk : k1 = k
    · subst hk
      simp only [bump, if_pos rfl, List.map_cons]
      constructor
      · rintro h
        exact Or.inl h
      · rintro (h | h)
        · exact h
        · simp [h]
    · simp only [bump, if_neg hk, List.map_cons, List.mem_cons, ih]
      tauto

theorem bump_fst_nodup (k : String) (l : List (String × Nat))
    (h : (l.map Prod.fst).Nodup) : ((bump k l).map Prod.fst).Nodup := by
  induction l with
  | nil => simp [bump]
  | cons kn rest ih =>
    obtain ⟨k1, n⟩ := kn
    simp only [List.map_cons, List.nodup_cons] at h
    by_cases hk : k1 = k
    · subst hk
      have hb : bump k1 ((k1, n) :: rest) = (k1, n + 1) :: rest := by
        simp [bump]
      rw [hb, List.map_cons, List.nodup_cons]
      exact ⟨h.1, h.2⟩
    · have hb : bump k ((k1, n) :: rest) = (k1, n) :: bump k rest := by
        simp [bump, hk]
      rw [hb, List.map_cons, List.nodup_cons]
      refine ⟨?_, ih h.2⟩
      intro hmem
      rw [bump_fst_mem] at hmem
      rcases hmem with hin | hin
      · exact h.1 hin
      · exact hk hin

theorem foldl_bump_fst_nodup {α : Type} (P : α → Prop) [DecidablePred P] (key : α → String)
    (rows : List α) :
    ∀ acc : List (String × Nat), (acc.map Prod.fst).Nodup →
    (((rows.foldl (fun a row => if P row then bump (key row) a else a) acc)).map
        Prod.fst).Nodup := by
  induction rows with
  | nil => intro acc hacc; simpa using hacc
  | cons row rest ih =>
    intro acc hacc
    rw [List.foldl_cons]
    by_cases hP : P row
    · rw [if_pos hP]
      exact ih _ (bump_fst_nodup _ _ hacc)
    · rw [if_neg hP]
      exact ih _ hacc

theorem lookupD_of_mem (u : String) (c : Nat) (l : List (String × Nat))
    (h : (l.map Prod.fst).Nodup) (hm : (u, c) ∈ l) : lookupD u l = c := by
  induction l with
  | nil => simp at hm
  | cons kn rest ih =>
    obtain ⟨k1, n⟩ := kn
    simp only [List.map_cons, List.nodup_cons] at h
    rcases List.mem_cons.mp hm with heq | htail
    · rw [show k1 = u from (Prod.mk.injEq _ _ _ _ ▸ heq.symm).1,
        show n = c from (Prod.mk.injEq _ _ _ _ ▸ heq.symm).2]
      simp [lookupD]
    · have hne : ¬ k1 = u := by
        intro hk
        exact h.1 (hk ▸ (List.mem_map.mpr ⟨(u, c), htail, rfl⟩))
      simp [lookupD, hne, ih h.2 htail]

/-- C6: `get_top_for_role` returns per-user occurrence counts of the rows
matching the guild/role pair, sorted by count descending, truncated to at most
`limit` entries: each returned pair's count is the number of matching rows by
that user, and on rows inserted A, A, A, B, B, B, C with `limit = 2` the
result is `[(A, 3), (B, 3)]` — the tie between A and B is broken by
first-encountered order. -/
theorem C6_get_top_for_role (gid rid : String) (limit : Nat) (rows : List PingRow) :
    List.Sorted byCountDesc (get_top_for_role gid rid limit rows)
    ∧ (get_top_for_role gid rid limit rows).length ≤ limit
    ∧ (∀ p ∈ get_top_for_role gid rid limit rows,
        p.2 = rows.countP (fun row =>
          decide ((row.guild_id = gid ∧ row.role_id = rid) ∧ row.user_id = p.1)))
    ∧ get_top_for_role "g" "r" 2 tieRows = [("A", 3), ("B", 3)] := by
  have hsorted : List.Sorted byCountDesc
      (List.insertionSort byCountDesc (ping_counts gid rid rows)) :=
    List.sorted_insertionSort byCountDesc _
  refine ⟨?_, ?_, ?_, ?_⟩
  · simp only [get_top_for_role, most_common]
    exact List.Pairwise.sublist (List.take_sublist _ _) hsorted
  · simp only [get_top_for_role, most_common]
    rw [List.length_take]
    exact min_le_left _ _
  · intro p hp
    obtain ⟨u, c⟩ := p
    simp only [get_top_for_role, most_common] at hp
    have hp1 : (u, c) ∈ List.insertionSort byCountDesc (ping_counts gid rid rows) :=
      List.mem_of_mem_take hp
    have hp2 : (u, c) ∈ ping_counts gid rid rows :=
      (List.mem_insertionSort byCountDesc).mp hp1
    have hnd : ((ping_counts gid rid rows).map Prod.fst).Nodup :=
      foldl_bump_fst_nodup _ _ rows [] (by simp)
    have hlk : lookupD u (ping_counts gid rid rows) = c :=
      lookupD_of_mem u c _ hnd hp2
    rw [ping_counts,
      lookupD_foldl_bump (fun row : PingRow => row.guild_id = gid ∧ row.role_id = rid)
        (fun row => row.user_id) u rows []] at hlk
    simpa [lookupD] using hlk.symm
  · decide

theorem lookupD_roleStep (g : GuildView) (uq u r : String) (c : Nat)
    (tot : List (String × Nat)) :
    lookupD u (if g.resolves r && g.hasRole uq r then bumpBy r c tot else tot)
      = lookupD u tot
        + (if r = u ∧ (g.resolves u && g.hasRole uq u) = true then c else 0) := by
  by_cases hur : r = u
  · subst hur
    by_cases hq : (g.resolves r && g.hasRole uq r) = true
    · rw [if_pos hq, lookupD_bumpBy]
      simp [hq]
    · rw [if_neg hq]
      simp [hq]
  · by_cases hq : (g.resolves r && g.hasRole uq r) = true
    · rw [if_pos hq, lookupD_bumpBy]
      simp [hur]
    · rw [if_neg hq]
      simp [hur]

theorem lookupD_addRoles (g : GuildView) (uq u : String) (c : Nat)
    (rids : List String) :
    rids.Nodup → ∀ tot : List (String × Nat),
    lookupD u (addRoles g uq c rids tot)
      = lookupD u tot
        + (if u ∈ rids ∧ (g.resolves u && g.hasRole uq u) = true then c else 0) := by
  induction rids with
  | nil =>
    intro _ tot
    simp [addRoles]
  | cons r rest ih =>
    intro hnd tot
    obtain ⟨hnr, hnd2⟩ := List.nodup_cons.mp hnd
    have hstep : addRoles g uq c (r :: rest) tot
        = addRoles g uq c rest
            (if g.resolves r && g.hasRole uq r then bumpBy r c tot else tot) := rfl
    rw [hstep, ih hnd2, lookupD_roleStep]
    by_cases hq : (g.resolves u && g.hasRole uq u) = true
    · by_cases hur : r = u
      · subst hur
        simp [hq, hnr]
      · have hiff : (u ∈ r :: rest) ↔ u ∈ rest := by
          constructor
          · intro h
            rcases List.mem_cons.mp h with h1 | h1
            · exact absurd h1.symm hur
            · exact h1
          · intro h
            exact List.mem_cons.mpr (Or.inr h)
        by_cases hmem : u ∈ rest
        · simp [hq, hur, hmem, hiff]
        · simp [hq, hur, hmem, hiff]
    · simp [hq]

theorem lookupD_map_zero (u : String) (rids : List String) :
    lookupD u (rids.map (fun rid => (rid, 0))) = 0 := by
  induction rids with
  | nil => rfl
  | cons r rest ih =>
    by_cases h : r = u <;> simp [lookupD, h, ih]

theorem lookupD_foldl_addRoles (g : GuildView) (rank_roles : List String) (u : String)
    (hnd : rank_roles.Nodup) (urc : List (String × Nat)) :
    ∀ init : List (String × Nat),
    lookupD u (urc.foldl (fun tot uc =>
        if g.isMember uc.1 then addRoles g uc.1 uc.2 rank_roles tot else tot) init)
      = lookupD u init
        + (urc.map (fun uc =>
            if g.isMember uc.1 = true ∧ u ∈ rank_roles
                ∧ (g.resolves u && g.hasRole uc.1 u) = true
            then uc.2 else 0)).sum := by
  induction urc with
  | nil =>
    intro init
    simp
  | cons uc rest ih =>
    intro init
    rw [List.foldl_cons, ih, List.map_cons, List.sum_cons]
    by_cases hm : g.isMember uc.1
    · rw [if_pos hm, lookupD_addRoles g uc.1 u uc.2 rank_roles hnd]
      by_cases hin : u ∈ rank_roles
      · by_cases hq : (g.resolves u && g.hasRole uc.1 u) = true
        · simp [hm, hin, hq]
          omega
        · simp [hin, hq]
      · simp [hin]
    · rw [if_neg hm]
      simp [hm]

theorem sum_contrib_bump (Q : String → Bool) (k : String) (l : List (String × Nat)) :
    ((bump k l).map (fun uc => if Q uc.1 = true then uc.2 else 0)).sum
      = (l.map (fun uc => if Q uc.1 = true then uc.2 else 0)).sum
        + (if Q k = true then 1 else 0) := by
  induction l with
  | nil => simp [bump]
  | cons kn rest ih =>
    obtain ⟨k1, n⟩ := kn
    by_cases hk : k1 = k
    · subst hk
      have hb : bump k1 ((k1, n) :: rest) = (k1, n + 1) :: rest := by
        simp [bump]
      rw [hb]
      by_cases hq : Q k1 = true <;> simp [hq] <;> omega
    · have hb : bump k ((k1, n) :: rest) = (k1, n) :: bump k rest := by
        simp [bump, hk]
      rw [hb, List.map_cons, List.sum_cons, List.map_cons, List.sum_cons, ih]
      omega

theorem sum_contrib_urc (Q : String → Bool) (reactions : List Reaction) :
    ∀ acc : List (String × Nat),
    ((reactions.foldl (fun a r => bump r.user_id a) acc).map
        (fun uc => if Q uc.1 = true then uc.2 else 0)).sum
      = (acc.map (fun uc => if Q uc.1 = true then uc.2 else 0)).sum
        + reactions.countP (fun r => Q r.user_id) := by
  induction reactions with
  | nil =>
    intro acc
    simp
  | cons r rest ih =>
    intro acc
    rw [List.foldl_cons, ih, sum_contrib_bump, List.countP_cons]
    by_cases hq : Q r.user_id = true <;> simp [hq] <;> omega

/-- C9: in the `reactionstats` role ranking, for distinct configured roles,
each role's accumulated total is the number of reactions whose reactor is
currently a member and holds that (resolvable) role — i.e. every user's full
reaction count is added to every monitored role they hold, deliberate
double-counting — and the monitored roles are output sorted by accumulated
total descending. -/
theorem C9_role_ranking_double_count (g : GuildView) (rank_roles : List String)
    (reactions : List Reaction) (hnd : rank_roles.Nodup) :
    (∀ rid ∈ rank_roles,
      lookupD rid (role_totals g rank_roles (user_reaction_count reactions))
        = reactions.countP (fun r =>
            g.isMember r.user_id && g.resolves rid && g.hasRole r.user_id rid))
    ∧ List.Sorted byCountDesc (reactionstats_roles g rank_roles reactions) := by
  constructor
  · intro rid hrid
    rw [role_totals, lookupD_foldl_addRoles g rank_roles rid hnd, lookupD_map_zero]
    have hcongr : (user_reaction_count reactions).map (fun uc =>
          if g.isMember uc.1 = true ∧ rid ∈ rank_roles
              ∧ (g.resolves rid && g.hasRole uc.1 rid) = true
          then uc.2 else 0)
        = (user_reaction_count reactions).map (fun uc =>
            if (g.isMember uc.1 && g.resolves rid && g.hasRole uc.1 rid) = true
            then uc.2 else 0) := by
      refine List.map_congr_left (fun uc _ => ?_)
      by_cases h1 : g.isMember uc.1 = true
      · by_cases h2 : (g.resolves rid && g.hasRole uc.1 rid) = true
        · simp only [Bool.and_eq_true] at h2 ⊢
          simp [h1, h2, hrid]
        · simp only [Bool.and_eq_true] at h2 ⊢
          simp [h1, h2, hrid]
      · simp only [Bool.and_eq_true]
        simp [h1]
    rw [hcongr, user_reaction_count,
      sum_contrib_urc (fun v => g.isMember v && g.resolves rid && g.hasRole v rid) reactions []]
    simp
  · exact List.sorted_insertionSort byCountDesc _

/-- Witness for C9: two distinct monitored roles, a guild view where the one
reacting user is a member holding both, and ten reactions by that user: the
theorem applies, and both role totals evaluate to 10 — not 5 each. -/
theorem C9_role_ranking_double_count_witness :
    (∀ rid ∈ ["R1", "R2"],
      lookupD rid (role_totals allView ["R1", "R2"]
          (user_reaction_count (List.replicate 10 (demoReaction "u"))))
        = (List.replicate 10 (demoReaction "u")).countP (fun r =>
            allView.isMember r.user_id && allView.resolves rid
              && allView.hasRole r.user_id rid))
    ∧ List.Sorted byCountDesc
        (reactionstats_roles allView ["R1", "R2"] (List.replicate 10 (demoReaction "u")))
    ∧ lookupD "R1" (role_totals allView ["R1", "R2"]
        (user_reaction_count (List.replicate 10 (demoReaction "u")))) = 10
    ∧ lookupD "R2" (role_totals allView ["R1", "R2"]
        (user_reaction_count (List.replicate 10 (demoReaction "u")))) = 10 :=
  ⟨(C9_role_ranking_double_count allView ["R1", "R2"]
      (List.replicate 10 (demoReaction "u")) (by decide)).1,
   (C9_role_ranking_double_count allView ["R1", "R2"]
      (List.replicate 10 (demoReaction "u")) (by decide)).2,
   by decide, by decide⟩

end PingCount
